import Mathlib

/-!
Verification of `sogs/cleanup.py`: periodic maintenance of a message-board
store.  The Python module exposes four pruning operations (`prune_files`,
`prune_message_history`, `prune_room_activity`, `apply_permission_updates`)
and a driver (`cleanup`) that runs them on a fixed interval.  We embed the
database tables as lists of records, the filesystem as a list of present
blob paths plus a set of paths whose removal raises a non-not-found error,
and each operation as a pure function on that state, translated statement
by statement from the source.
-/

namespace SogsCleanup

/-- A row of the `files` table: storage path and absolute expiry time. -/
structure FileRec where
  path : String
  expiry : Int
deriving DecidableEq, Repr

/-- A row of the `message_history` table: the `replaced` timestamp. -/
structure HistRec where
  replaced : Int
deriving DecidableEq, Repr

/-- A row of the `room_users` table: (room, user) key and `last_active`. -/
structure ActivityRec where
  room : Nat
  user : Nat
  last_active : Int
deriving DecidableEq, Repr

/-- A row of `user_permission_overrides`: (room, user) key and four
tri-state flags (`none` is SQL NULL). -/
structure PermRow where
  room : Nat
  user : Nat
  read : Option Bool
  write : Option Bool
  upload : Option Bool
  banned : Option Bool
deriving DecidableEq, Repr

/-- A row of `user_permission_futures`: like `PermRow` plus the activation
time `at`. -/
structure FutureRow where
  room : Nat
  user : Nat
  at_ : Int
  read : Option Bool
  write : Option Bool
  upload : Option Bool
  banned : Option Bool
deriving DecidableEq, Repr

/-- The relational store: the five tables touched by `cleanup.py`. -/
structure DB where
  files : List FileRec
  message_history : List HistRec
  room_users : List ActivityRec
  user_permission_overrides : List PermRow
  user_permission_futures : List FutureRow
deriving DecidableEq, Repr

/-- The filesystem: blob paths currently present, and paths for which
`os.unlink` raises an error other than `FileNotFoundError` (e.g. a
permission error); such an unlink leaves the blob in place. -/
structure Fs where
  present : List String
  failing : List String
deriving DecidableEq, Repr

/-- Outcome of one `os.unlink` call. -/
inductive UnlinkResult where
  | ok
  | notFound
  | err
deriving DecidableEq, Repr

/-- `os.unlink(path)`: raises a generic error for a failing path, removes a
present path, and raises `FileNotFoundError` for an absent one. -/
def unlink (fs : Fs) (p : String) : UnlinkResult × Fs :=
  if p ∈ fs.failing then (UnlinkResult.err, fs)
  else if p ∈ fs.present then
    (UnlinkResult.ok, { fs with present := fs.present.filter (fun q => decide (q ≠ p)) })
  else (UnlinkResult.notFound, fs)

/-- The unlink loop of `prune_files`: walk the selected paths, swallowing
`FileNotFoundError`, logging (and otherwise ignoring) any other error, and
counting the successful unlinks in the accumulator `n`. -/
def unlinkAll (fs : Fs) (n : Nat) : List String → Fs × Nat
  | [] => (fs, n)
  | p :: ps =>
    unlinkAll (unlink fs p).2
      (if (unlink fs p).1 = UnlinkResult.ok then n + 1 else n) ps

/-- Result of a `prune_files` run: the returned count (`len(to_remove)`),
the store and filesystem afterwards, and the logged `unlink_count`. -/
structure PruneFilesResult where
  ret : Nat
  db : DB
  fs : Fs
  unlinked : Nat
deriving DecidableEq, Repr

/-- The `SELECT path FROM files WHERE expiry < ?` step of `prune_files`:
the `to_remove` list. -/
def selectExpired (now : Int) (db : DB) : List String :=
  (db.files.filter (fun f => decide (f.expiry < now))).map FileRec.path

/-- `prune_files()`: select paths of rows with `expiry < now`; if none,
return 0; otherwise delete rows with `expiry <= now`, commit, then unlink
each selected path from disk, and return the number of selected rows. -/
def prune_files (now : Int) (db : DB) (fs : Fs) : PruneFilesResult :=
  if (selectExpired now db).isEmpty then
    ⟨0, db, fs, 0⟩
  else
    ⟨(selectExpired now db).length,
     { db with files := db.files.filter (fun f => !(decide (f.expiry ≤ now))) },
     (unlinkAll fs 0 (selectExpired now db)).1,
     (unlinkAll fs 0 (selectExpired now db)).2⟩

/-- `prune_message_history()`: delete rows with
`replaced < now - threshold_days * 86400` and return the rowcount. -/
def prune_message_history (now : Int) (threshold_days : Nat) (db : DB) : Nat × DB :=
  let cutoff : Int := now - (threshold_days : Int) * 86400
  ((db.message_history.filter (fun h => decide (h.replaced < cutoff))).length,
   { db with message_history :=
       db.message_history.filter (fun h => !(decide (h.replaced < cutoff))) })

/-- `prune_room_activity()`: delete rows with
`last_active < now - threshold_days * 86400` and return the rowcount. -/
def prune_room_activity (now : Int) (threshold_days : Nat) (db : DB) : Nat × DB :=
  let cutoff : Int := now - (threshold_days : Int) * 86400
  ((db.room_users.filter (fun a => decide (a.last_active < cutoff))).length,
   { db with room_users :=
       db.room_users.filter (fun a => !(decide (a.last_active < cutoff))) })

/-- `COALESCE(x, y)` on two nullable boolean columns. -/
def coalesce (x y : Option Bool) : Option Bool :=
  match x with
  | some v => some v
  | none => y

/-- The `DO UPDATE SET` clause: each flag takes the excluded (future) value
when non-null, otherwise keeps the existing live value. -/
def mergeRow (r : PermRow) (f : FutureRow) : PermRow :=
  { room := r.room, user := r.user,
    read := coalesce f.read r.read, write := coalesce f.write r.write,
    upload := coalesce f.upload r.upload, banned := coalesce f.banned r.banned }

/-- The plain `INSERT` of a future's values, NULLs included. -/
def futureToRow (f : FutureRow) : PermRow :=
  { room := f.room, user := f.user,
    read := f.read, write := f.write, upload := f.upload, banned := f.banned }

/-- One row of the `INSERT ... ON CONFLICT (room, user) DO UPDATE`: update
the existing live row for the (room, user) key, or append a new row. -/
def upsertOne (rows : List PermRow) (f : FutureRow) : List PermRow :=
  if rows.any (fun r => decide (r.room = f.room ∧ r.user = f.user)) then
    rows.map (fun r =>
      if r.room = f.room ∧ r.user = f.user then mergeRow r f else r)
  else
    rows ++ [futureToRow f]

/-- The `SELECT ... FROM user_permission_futures WHERE at <= ?` feeding the
upsert: the rows the statement processes, so also its rowcount. -/
def appliedFutures (now : Int) (db : DB) : List FutureRow :=
  db.user_permission_futures.filter (fun f => decide (f.at_ ≤ now))

/-- `apply_permission_updates()`: upsert every future with `at <= now` into
the live override table; if the statement touched no rows, return 0 with the
store unchanged (a zero rowcount means the upsert itself processed no rows);
otherwise delete the applied futures and return the rowcount. -/
def apply_permission_updates (now : Int) (db : DB) : Nat × DB :=
  if (appliedFutures now db).length = 0 then
    (0, db)
  else
    ((appliedFutures now db).length,
     { db with
       user_permission_overrides :=
         (appliedFutures now db).foldl upsertOne db.user_permission_overrides,
       user_permission_futures :=
         db.user_permission_futures.filter (fun f => !(decide (f.at_ ≤ now))) })

/-- Lookup in the live override table by its (room, user) primary key. -/
def getOverride (rows : List PermRow) (room user : Nat) : Option PermRow :=
  rows.find? (fun r => decide (r.room = room ∧ r.user = user))

/-- Whether a future targets the given (room, user) key. -/
def keyMatch (room user : Nat) (g : FutureRow) : Bool :=
  decide (g.room = room ∧ g.user = user)

/-- Severity of a driver log line. -/
inductive LogLevel where
  | debug
  | info
  | warn
  | error
deriving DecidableEq, Repr

/-- One log line emitted by the driver. -/
structure LogEntry where
  level : LogLevel
  msg : String
deriving DecidableEq, Repr

/-- The `cleanup()` driver for one tick, over abstract fallible operations
(a Python operation may raise, e.g. on a database error; the raising
operation's transaction rolls back, so on `Except.error` the state is
unchanged by that operation).  The four operations run in order inside one
`try`; the first exception skips the rest, is logged as a warning, and is
never propagated — the function is total. -/
def cleanup {σ : Type} (o1 o2 o3 o4 : σ → Except String (Nat × σ)) (s : σ) :
    σ × List LogEntry :=
  match o1 s with
  | Except.error e => (s, [⟨LogLevel.warn, "Periodic database cleanup failed: " ++ e⟩])
  | Except.ok (n1, s1) =>
    match o2 s1 with
    | Except.error e => (s1, [⟨LogLevel.warn, "Periodic database cleanup failed: " ++ e⟩])
    | Except.ok (n2, s2) =>
      match o3 s2 with
      | Except.error e => (s2, [⟨LogLevel.warn, "Periodic database cleanup failed: " ++ e⟩])
      | Except.ok (n3, s3) =>
        match o4 s3 with
        | Except.error e => (s3, [⟨LogLevel.warn, "Periodic database cleanup failed: " ++ e⟩])
        | Except.ok (n4, s4) =>
          (s4, [⟨LogLevel.debug,
                 "Pruned " ++ toString n1 ++ " files, " ++ toString n2 ++
                 " msg hist, " ++ toString n3 ++ " room activity, " ++
                 toString n4 ++ " perm updates"⟩])

/-! Concrete stores and filesystems used to exercise the operations. -/

/-- The empty filesystem. -/
def fs0 : Fs := ⟨[], []⟩

/-- A store that is empty apart from the `files` rows given. -/
def filesDB (l : List FileRec) : DB := ⟨l, [], [], [], []⟩

/-- The spec's concrete scenario: three expired files A, B, C and one
unexpired file D (with `now` taken as 100). -/
def scenarioDB : DB :=
  filesDB [⟨"A", 10⟩, ⟨"B", 20⟩, ⟨"C", 30⟩, ⟨"D", 500⟩]

/-- All four blobs on disk, none failing. -/
def scenarioFs : Fs := ⟨["A", "B", "C", "D"], []⟩

/-- The same disk but with B's blob already missing. -/
def scenarioBFs : Fs := ⟨["A", "C", "D"], []⟩

/-- A store holding a single file whose expiry is exactly 5. -/
def boundaryDB : DB := filesDB [⟨"E", 5⟩]

/-- A store with one strictly expired file and one file expiring exactly at
`now = 5`. -/
def mixedDB : DB := filesDB [⟨"F", 4⟩, ⟨"G", 5⟩]

/-- The spec's merge example: live override `{read=true, write=null}` (with
a concrete upload value) for (room 1, user 2). -/
def c2Live : PermRow := ⟨1, 2, some true, none, some true, none⟩

/-- The spec's merge example: future `{read=null, write=false, banned=true}`
for (room 1, user 2), activating at time 5. -/
def c2Future : FutureRow := ⟨1, 2, 5, none, some false, none, some true⟩

/-- A store holding exactly the merge example's live row and future. -/
def c2DB : DB := ⟨[], [], [], [c2Live], [c2Future]⟩

/-- A store whose only future activates at time 99 (not yet due at 10). -/
def lateFutureDB : DB := ⟨[], [], [], [], [⟨1, 2, 99, some true, none, none, none⟩]⟩

/-- A store with one history row and one activity row sitting exactly at
the retention boundary for `now = 0` and one-day thresholds. -/
def retentionDB : DB := ⟨[], [⟨-86400⟩], [⟨1, 2, -86400⟩], [], []⟩

/-- A tick operation that succeeds, counting 1 and bumping the state. -/
def tickOpOk : Nat → Except String (Nat × Nat) := fun s => Except.ok (1, s + 1)

/-- A tick operation that raises. -/
def tickOpFail : Nat → Except String (Nat × Nat) := fun _ => Except.error "boom"

/-! Helper lemmas about the unlink loop. -/

theorem unlink_failing_eq (fs : Fs) (p : String) :
    ((unlink fs p).2).failing = fs.failing := by
  unfold unlink
  split_ifs <;> rfl

theorem unlink_present_subset (fs : Fs) (p q : String)
    (h : q ∈ ((unlink fs p).2).present) : q ∈ fs.present := by
  unfold unlink at h
  split_ifs at h
  · exact h
  · exact (List.mem_filter.mp h).1
  · exact h

theorem unlink_self_not_present (fs : Fs) (p : String) (hf : p ∉ fs.failing) :
    p ∉ ((unlink fs p).2).present := by
  intro hmem
  unfold unlink at hmem
  split_ifs at hmem with h1
  · have hmem2 : p ∈ fs.present.filter (fun q => decide (q ≠ p)) := hmem
    have := (List.mem_filter.mp hmem2).2
    simp at this
  · exact h1 hmem

theorem unlink_not_ok_of_missing (fs : Fs) (p : String) (h : p ∉ fs.present) :
    (unlink fs p).1 ≠ UnlinkResult.ok := by
  unfold unlink
  split_ifs <;> simp_all

theorem unlinkAll_cons (fs : Fs) (n : Nat) (p : String) (ps : List String) :
    unlinkAll fs n (p :: ps)
      = unlinkAll (unlink fs p).2
          (if (unlink fs p).1 = UnlinkResult.ok then n + 1 else n) ps := rfl

theorem unlinkAll_present_subset (l : List String) : ∀ (fs : Fs) (n : Nat) (q : String),
    q ∈ ((unlinkAll fs n l).1).present → q ∈ fs.present := by
  induction l with
  | nil => intro fs n q h; exact h
  | cons p ps ih =>
    intro fs n q h
    rw [unlinkAll_cons] at h
    exact unlink_present_subset fs p q (ih _ _ q h)

theorem unlinkAll_not_present (l : List String) (fs : Fs) (n : Nat) (q : String)
    (h : q ∉ fs.present) : q ∉ ((unlinkAll fs n l).1).present :=
  fun hmem => h (unlinkAll_present_subset l fs n q hmem)

theorem unlinkAll_removes (l : List String) : ∀ (fs : Fs) (n : Nat) (p : String),
    p ∈ l → p ∉ fs.failing → p ∉ ((unlinkAll fs n l).1).present := by
  induction l with
  | nil => intro fs n p hp _; cases hp
  | cons q ps ih =>
    intro fs n p hp hf
    rw [unlinkAll_cons]
    rcases List.mem_cons.mp hp with heq | hmem
    · subst heq
      exact unlinkAll_not_present ps _ _ _ (unlink_self_not_present fs p hf)
    · exact ih _ _ p hmem (by rw [unlink_failing_eq]; exact hf)

theorem unlinkAll_count_le (l : List String) : ∀ (fs : Fs) (n : Nat),
    (unlinkAll fs n l).2 ≤ n + l.length := by
  induction l with
  | nil => intro fs n; simp [unlinkAll]
  | cons p ps ih =>
    intro fs n
    rw [unlinkAll_cons]
    by_cases h : (unlink fs p).1 = UnlinkResult.ok
    · rw [if_pos h]
      have := ih (unlink fs p).2 (n + 1)
      simp only [List.length_cons]
      omega
    · rw [if_neg h]
      have := ih (unlink fs p).2 n
      simp only [List.length_cons]
      omega

theorem unlinkAll_missing (l : List String) : ∀ (fs : Fs) (n : Nat) (p : String),
    p ∈ l → p ∉ fs.present → (unlinkAll fs n l).2 + 1 ≤ n + l.length := by
  induction l with
  | nil => intro fs n p hp _; cases hp
  | cons q ps ih =>
    intro fs n p hp hnp
    rw [unlinkAll_cons]
    rcases List.mem_cons.mp hp with heq | hmem
    · subst heq
      rw [if_neg (unlink_not_ok_of_missing fs p hnp)]
      have := unlinkAll_count_le ps (unlink fs p).2 n
      simp only [List.length_cons]
      omega
    · have hnp2 : p ∉ ((unlink fs q).2).present :=
        fun hm => hnp (unlink_present_subset fs q p hm)
      by_cases h : (unlink fs q).1 = UnlinkResult.ok
      · rw [if_pos h]
        have := ih (unlink fs q).2 (n + 1) p hmem hnp2
        simp only [List.length_cons]
        omega
      · rw [if_neg h]
        have := ih (unlink fs q).2 n p hmem hnp2
        simp only [List.length_cons]
        omega

/-! Helper lemmas about `prune_files`. -/

theorem selectExpired_eq_nil_iff (now : Int) (db : DB) :
    selectExpired now db = [] ↔ ∀ f ∈ db.files, ¬ f.expiry < now := by
  simp [selectExpired, List.map_eq_nil_iff, List.filter_eq_nil_iff]

theorem prune_files_of_no_expired (now : Int) (db : DB) (fs : Fs)
    (h : ∀ f ∈ db.files, ¬ f.expiry < now) :
    prune_files now db fs = ⟨0, db, fs, 0⟩ := by
  have hemp : (selectExpired now db).isEmpty = true := by
    rw [List.isEmpty_iff]
    exact (selectExpired_eq_nil_iff now db).mpr h
  unfold prune_files
  rw [if_pos hemp]

theorem prune_files_of_expired (now : Int) (db : DB) (fs : Fs)
    (h : ∃ f ∈ db.files, f.expiry < now) :
    prune_files now db fs =
      ⟨(selectExpired now db).length,
       { db with files := db.files.filter (fun f => !(decide (f.expiry ≤ now))) },
       (unlinkAll fs 0 (selectExpired now db)).1,
       (unlinkAll fs 0 (selectExpired now db)).2⟩ := by
  have hne : ¬ (selectExpired now db).isEmpty = true := by
    rw [List.isEmpty_iff]
    intro hnil
    rcases h with ⟨f, hf, hlt⟩
    exact ((selectExpired_eq_nil_iff now db).mp hnil f hf) hlt
  unfold prune_files
  rw [if_neg hne]

theorem prune_files_ret_eq (now : Int) (db : DB) (fs : Fs) :
    (prune_files now db fs).ret = (selectExpired now db).length := by
  by_cases h : ∀ f ∈ db.files, ¬ f.expiry < now
  · rw [prune_files_of_no_expired now db fs h,
        (selectExpired_eq_nil_iff now db).mpr h]
    rfl
  · push_neg at h
    rw [prune_files_of_expired now db fs h]

theorem prune_files_no_expired_after (now : Int) (db : DB) (fs : Fs) :
    ∀ f ∈ ((prune_files now db fs).db).files, ¬ f.expiry < now := by
  by_cases h : ∀ f ∈ db.files, ¬ f.expiry < now
  · rw [prune_files_of_no_expired now db fs h]
    exact h
  · push_neg at h
    rw [prune_files_of_expired now db fs h]
    intro f hf
    have hkeep := (List.mem_filter.mp hf).2
    simp at hkeep
    intro hlt
    omega

theorem prune_files_deletes_le (now : Int) (db : DB) (fs : Fs)
    (h : ∃ f ∈ db.files, f.expiry < now) :
    ∀ f ∈ db.files, f.expiry ≤ now → f ∉ ((prune_files now db fs).db).files := by
  rw [prune_files_of_expired now db fs h]
  intro f _ hle hmem
  have hkeep := (List.mem_filter.mp hmem).2
  simp at hkeep
  omega

theorem prune_files_fs_removes (now : Int) (db : DB) (fs : Fs) :
    ∀ p ∈ selectExpired now db, p ∉ fs.failing →
      p ∉ ((prune_files now db fs).fs).present := by
  intro p hp hf
  by_cases h : ∀ f ∈ db.files, ¬ f.expiry < now
  · rw [(selectExpired_eq_nil_iff now db).mpr h] at hp
    cases hp
  · push_neg at h
    rw [prune_files_of_expired now db fs h]
    exact unlinkAll_removes _ _ _ _ hp hf

/-! Theorems settling the claims about `prune_files`. -/

/-- C9: `prune_files` returns the number of file records whose expiry is
strictly before the captured now; when no such record exists it returns 0
and leaves the store and the filesystem untouched; and in the concrete
scenario with expired files A, B, C and unexpired D it returns 3, removes
the three rows, and keeps D's row. -/
theorem c9_prune_files_returns_select_count (now : Int) (db : DB) (fs : Fs) :
    ((prune_files now db fs).ret
        = (db.files.filter (fun f => decide (f.expiry < now))).length) ∧
    ((∀ f ∈ db.files, ¬ f.expiry < now) → prune_files now db fs = ⟨0, db, fs, 0⟩) ∧
    ((prune_files 100 scenarioDB scenarioFs).ret = 3 ∧
     ((prune_files 100 scenarioDB scenarioFs).db).files = [⟨"D", 500⟩]) := by
  refine ⟨?_, prune_files_of_no_expired now db fs, by decide, by decide⟩
  have := prune_files_ret_eq now db fs
  simpa [selectExpired, List.length_map] using this

/-- Witness for C9: on an empty store the run returns 0 and changes
nothing. -/
theorem c9_witness : prune_files 7 (filesDB []) fs0 = ⟨0, filesDB [], fs0, 0⟩ :=
  (c9_prune_files_returns_select_count 7 (filesDB []) fs0).2.1
    (by intro f hf; simp [filesDB] at hf)

/-- C1: after a `prune_files` run no record with expiry strictly before the
captured now remains in the store, and every selected path whose removal
does not raise a non-not-found error is gone from disk; the store outcome
is stated for every filesystem, so a blob-removal failure never rolls the
database deletion back. -/
theorem c1_store_ahead_of_filesystem (now : Int) (db : DB) (fs : Fs) :
    (∀ f ∈ ((prune_files now db fs).db).files, ¬ f.expiry < now) ∧
    (∀ p ∈ (db.files.filter (fun f => decide (f.expiry < now))).map FileRec.path,
      p ∉ fs.failing → p ∉ ((prune_files now db fs).fs).present) :=
  ⟨prune_files_no_expired_after now db fs, prune_files_fs_removes now db fs⟩

/-- Witness for C1: in the concrete scenario, expired blob A is off the
disk after the run. -/
theorem c1_witness : "A" ∉ ((prune_files 100 scenarioDB scenarioFs).fs).present :=
  (c1_store_ahead_of_filesystem 100 scenarioDB scenarioFs).2 "A" (by decide) (by decide)

/-- C3 as stated is false: with a single file whose expiry equals the
captured now (both 5), the strict select is empty, so `prune_files`
returns 0 early and the expiry-equal-to-now record survives the run. -/
theorem c3_counterexample :
    FileRec.mk "E" 5 ∈ ((prune_files 5 boundaryDB fs0).db).files ∧
    (prune_files 5 boundaryDB fs0).ret = 0 := by
  exact ⟨by decide, by decide⟩

/-- C3 amended: provided at least one record is strictly expired (so the
run reaches its delete statement), every record with expiry ≤ now — in
particular one whose expiry equals the captured now — is deleted from the
store. -/
theorem c3_amended_boundary_delete (now : Int) (db : DB) (fs : Fs)
    (h : ∃ f ∈ db.files, f.expiry < now) :
    ∀ f ∈ db.files, f.expiry ≤ now → f ∉ ((prune_files now db fs).db).files :=
  prune_files_deletes_le now db fs h

/-- Witness for the amended C3: with F strictly expired, the record G whose
expiry equals now = 5 is deleted as well. -/
theorem c3_witness : FileRec.mk "G" 5 ∉ ((prune_files 5 mixedDB fs0).db).files :=
  c3_amended_boundary_delete 5 mixedDB fs0 ⟨⟨"F", 4⟩, by decide, by decide⟩
    ⟨"G", 5⟩ (by decide) (by decide)

/-- C10: the returned count can undercount the rows actually deleted — when
some record is strictly expired, every record with expiry ≤ now is deleted
while only the strictly expired ones are counted — and when no record is
strictly expired the early return leaves even an expiry-equals-now record
in place. Concretely, with F (expiry 4) and G (expiry 5) and now = 5 the
run returns 1 yet deletes both rows. -/
theorem c10_undercount_and_boundary_skip (now : Int) (db : DB) (fs : Fs) :
    ((∃ f ∈ db.files, f.expiry < now) →
       ∀ f ∈ db.files, f.expiry ≤ now → f ∉ ((prune_files now db fs).db).files) ∧
    ((∀ f ∈ db.files, ¬ f.expiry < now) → (prune_files now db fs).db = db) ∧
    ((prune_files 5 mixedDB fs0).ret = 1 ∧
     ((prune_files 5 mixedDB fs0).db).files = []) := by
  refine ⟨prune_files_deletes_le now db fs, fun h => ?_, by decide, by decide⟩
  rw [prune_files_of_no_expired now db fs h]

/-- Witness for C10: the boundary record G is gone although only F was
counted. -/
theorem c10_witness : FileRec.mk "G" 5 ∉ ((prune_files 5 mixedDB scenarioFs).db).files :=
  (c10_undercount_and_boundary_skip 5 mixedDB scenarioFs).1
    ⟨⟨"F", 4⟩, by decide, by decide⟩ ⟨"G", 5⟩ (by decide) (by decide)

/-- C8: the filesystem phase cannot influence the database outcome — the
returned count and resulting store are identical for every filesystem
state; the number of blobs actually unlinked never exceeds the returned
count; and a selected path whose blob is already missing is not counted as
unlinked, leaving the unlink count strictly below the returned count. -/
theorem c8_unlink_errors_nonfatal (now : Int) (db : DB) (fs fs2 : Fs) :
    ((prune_files now db fs).ret = (prune_files now db fs2).ret) ∧
    ((prune_files now db fs).db = (prune_files now db fs2).db) ∧
    ((prune_files now db fs).unlinked ≤ (prune_files now db fs).ret) ∧
    (∀ p ∈ selectExpired now db, p ∉ fs.present →
       (prune_files now db fs).unlinked + 1 ≤ (prune_files now db fs).ret) := by
  by_cases h : ∀ f ∈ db.files, ¬ f.expiry < now
  · rw [prune_files_of_no_expired now db fs h, prune_files_of_no_expired now db fs2 h]
    refine ⟨rfl, rfl, le_refl 0, ?_⟩
    intro p hp
    rw [(selectExpired_eq_nil_iff now db).mpr h] at hp
    cases hp
  · push_neg at h
    rw [prune_files_of_expired now db fs h, prune_files_of_expired now db fs2 h]
    refine ⟨rfl, rfl, ?_, ?_⟩
    · simpa using unlinkAll_count_le (selectExpired now db) fs 0
    · intro p hp hnp
      simpa using unlinkAll_missing (selectExpired now db) fs 0 p hp hnp

/-- Witness for C8: with B's blob already missing, strictly fewer blobs are
unlinked than records counted. -/
theorem c8_witness :
    (prune_files 100 scenarioDB scenarioBFs).unlinked + 1
      ≤ (prune_files 100 scenarioDB scenarioBFs).ret :=
  (c8_unlink_errors_nonfatal 100 scenarioDB scenarioBFs scenarioBFs).2.2.2 "B"
    (by decide) (by decide)

/-! Helper lemmas about the retention filters and the permission upsert. -/

theorem filter_pred_filter_not {α : Type} (q : α → Bool) (l : List α) :
    (l.filter (fun a => !(q a))).filter q = [] := by
  rw [List.filter_eq_nil_iff]
  intro a ha
  have h2 := (List.mem_filter.mp ha).2
  simp only [Bool.not_eq_true'] at h2
  simp [h2]

theorem apply_permission_updates_of_len_zero (now : Int) (db : DB)
    (hz : (appliedFutures now db).length = 0) :
    apply_permission_updates now db = (0, db) := by
  unfold apply_permission_updates
  rw [if_pos hz]

theorem apply_permission_updates_fst_of_nonzero (now : Int) (db : DB)
    (hz : ¬ (appliedFutures now db).length = 0) :
    (apply_permission_updates now db).1 = (appliedFutures now db).length := by
  unfold apply_permission_updates
  rw [if_neg hz]

theorem apply_permission_updates_snd_of_nonzero (now : Int) (db : DB)
    (hz : ¬ (appliedFutures now db).length = 0) :
    (apply_permission_updates now db).2
      = { db with
          user_permission_overrides :=
            (appliedFutures now db).foldl upsertOne db.user_permission_overrides,
          user_permission_futures :=
            db.user_permission_futures.filter (fun f => !(decide (f.at_ ≤ now))) } := by
  unfold apply_permission_updates
  rw [if_neg hz]

theorem find?_map_of_pred_eq {α : Type} (p : α → Bool) (g : α → α)
    (hg : ∀ a, p (g a) = p a) (l : List α) :
    (l.map g).find? p = (l.find? p).map g := by
  induction l with
  | nil => rfl
  | cons a l ih =>
    simp only [List.map_cons]
    by_cases hpa : p a = true
    · rw [List.find?_cons_of_pos l hpa,
          List.find?_cons_of_pos (l.map g) (by rw [hg a]; exact hpa)]
      rfl
    · rw [List.find?_cons_of_neg l hpa,
          List.find?_cons_of_neg (l.map g) (by rw [hg a]; exact hpa)]
      exact ih

theorem upsertOne_of_found (rows : List PermRow) (f : FutureRow) (r : PermRow)
    (h : getOverride rows f.room f.user = some r) :
    getOverride (upsertOne rows f) f.room f.user = some (mergeRow r f) := by
  have h2 : rows.find? (fun x => decide (x.room = f.room ∧ x.user = f.user)) = some r := h
  have hpr := List.find?_some h2
  have hany : rows.any (fun x => decide (x.room = f.room ∧ x.user = f.user)) = true :=
    List.any_eq_true.mpr ⟨r, List.mem_of_find?_eq_some h2, hpr⟩
  show (upsertOne rows f).find? (fun x => decide (x.room = f.room ∧ x.user = f.user))
      = some (mergeRow r f)
  unfold upsertOne
  rw [if_pos hany]
  rw [find?_map_of_pred_eq (fun x => decide (x.room = f.room ∧ x.user = f.user))
        (fun x => if x.room = f.room ∧ x.user = f.user then mergeRow x f else x)
        (by intro x
            by_cases hx : x.room = f.room ∧ x.user = f.user <;> simp [hx, mergeRow])
        rows]
  rw [h2]
  simp only [Option.map_some']
  rw [if_pos (of_decide_eq_true hpr)]

theorem upsertOne_of_not_found (rows : List PermRow) (f : FutureRow)
    (h : getOverride rows f.room f.user = none) :
    upsertOne rows f = rows ++ [futureToRow f] := by
  have hnot : ¬ rows.any (fun x => decide (x.room = f.room ∧ x.user = f.user)) = true := by
    intro hany
    rcases List.any_eq_true.mp hany with ⟨x, hx, hpx⟩
    exact (List.find?_eq_none.mp h x hx) hpx
  unfold upsertOne
  rw [if_neg hnot]

theorem find?_map_of_fix {α : Type} (p : α → Bool) (g : α → α)
    (hg : ∀ a, p (g a) = p a) (hfix : ∀ a, p a = true → g a = a) (l : List α) :
    (l.map g).find? p = l.find? p := by
  induction l with
  | nil => rfl
  | cons a l ih =>
    simp only [List.map_cons]
    by_cases hpa : p a = true
    · rw [List.find?_cons_of_pos l hpa,
          List.find?_cons_of_pos (l.map g) (by rw [hg a]; exact hpa), hfix a hpa]
    · rw [List.find?_cons_of_neg l hpa,
          List.find?_cons_of_neg (l.map g) (by rw [hg a]; exact hpa)]
      exact ih

theorem getOverride_upsertOne_other (rows : List PermRow) (g : FutureRow)
    (room user : Nat) (hne : ¬ (g.room = room ∧ g.user = user)) :
    getOverride (upsertOne rows g) room user = getOverride rows room user := by
  unfold upsertOne
  by_cases hany : rows.any (fun r => decide (r.room = g.room ∧ r.user = g.user)) = true
  · rw [if_pos hany]
    unfold getOverride
    apply find?_map_of_fix
    · intro a
      by_cases hx : a.room = g.room ∧ a.user = g.user <;> simp [hx, mergeRow]
    · intro a hpa
      have ha := of_decide_eq_true hpa
      rw [if_neg]
      intro hx
      exact hne ⟨hx.1 ▸ ha.1, hx.2 ▸ ha.2⟩
  · rw [if_neg hany]
    unfold getOverride
    rw [List.find?_append]
    have hsingle : List.find? (fun r => decide (r.room = room ∧ r.user = user))
        [futureToRow g] = none := by
      simp [List.find?, futureToRow, hne]
    rw [hsingle]
    exact Option.or_none

theorem getOverride_foldl_no_key (f : FutureRow) :
    ∀ (l : List FutureRow) (rows : List PermRow),
    l.filter (keyMatch f.room f.user) = [] →
    getOverride (l.foldl upsertOne rows) f.room f.user
      = getOverride rows f.room f.user := by
  intro l
  induction l with
  | nil => intro rows _; rfl
  | cons g l ih =>
    intro rows hfil
    by_cases hgk : g.room = f.room ∧ g.user = f.user
    · have hd : keyMatch f.room f.user g = true := by simp [keyMatch, hgk]
      rw [List.filter_cons_of_pos hd] at hfil
      exact absurd hfil (List.cons_ne_nil _ _)
    · have hd : ¬ keyMatch f.room f.user g = true := by simp [keyMatch, hgk]
      rw [List.filter_cons_of_neg hd] at hfil
      rw [List.foldl_cons, ih (upsertOne rows g) hfil,
          getOverride_upsertOne_other rows g f.room f.user hgk]

theorem getOverride_foldl_key (f : FutureRow) :
    ∀ (l : List FutureRow) (rows : List PermRow),
    l.filter (keyMatch f.room f.user) = [f] →
    getOverride (l.foldl upsertOne rows) f.room f.user
      = some (match getOverride rows f.room f.user with
              | some r => mergeRow r f
              | none => futureToRow f) := by
  intro l
  induction l with
  | nil => intro rows hfil; simp at hfil
  | cons g l ih =>
    intro rows hfil
    by_cases hgk : g.room = f.room ∧ g.user = f.user
    · have hd : keyMatch f.room f.user g = true := by simp [keyMatch, hgk]
      rw [List.filter_cons_of_pos hd] at hfil
      injection hfil with h1 h2
      rw [List.foldl_cons, h1, getOverride_foldl_no_key f l (upsertOne rows f) h2]
      cases hx : getOverride rows f.room f.user with
      | some r => rw [upsertOne_of_found rows f r hx]
      | none =>
        rw [upsertOne_of_not_found rows f hx]
        unfold getOverride at hx ⊢
        rw [List.find?_append, hx]
        simp [List.find?, futureToRow, Option.or]
    · have hd : ¬ keyMatch f.room f.user g = true := by simp [keyMatch, hgk]
      rw [List.filter_cons_of_neg hd] at hfil
      rw [List.foldl_cons, ih (upsertOne rows g) hfil,
          getOverride_upsertOne_other rows g f.room f.user hgk]

/-! Theorems settling the remaining claims. -/

/-- C5: message-history pruning deletes exactly the rows whose replaced
timestamp is strictly before now − days × 86400 and room-activity pruning
exactly those whose last-active timestamp is strictly before its own such
cutoff; a row exactly at a boundary is retained, and each operation
returns the number of rows it deleted. -/
theorem c5_retention_strict_boundaries (now : Int) (hd ad : Nat) (db : DB) :
    (∀ h : HistRec, h ∈ ((prune_message_history now hd db).2).message_history ↔
        h ∈ db.message_history ∧ ¬ h.replaced < now - (hd : Int) * 86400) ∧
    ((prune_message_history now hd db).1
        = (db.message_history.filter
            (fun h => decide (h.replaced < now - (hd : Int) * 86400))).length) ∧
    (∀ h ∈ db.message_history, h.replaced = now - (hd : Int) * 86400 →
        h ∈ ((prune_message_history now hd db).2).message_history) ∧
    (∀ a : ActivityRec, a ∈ ((prune_room_activity now ad db).2).room_users ↔
        a ∈ db.room_users ∧ ¬ a.last_active < now - (ad : Int) * 86400) ∧
    ((prune_room_activity now ad db).1
        = (db.room_users.filter
            (fun a => decide (a.last_active < now - (ad : Int) * 86400))).length) ∧
    (∀ a ∈ db.room_users, a.last_active = now - (ad : Int) * 86400 →
        a ∈ ((prune_room_activity now ad db).2).room_users) := by
  refine ⟨?_, rfl, ?_, ?_, rfl, ?_⟩
  · intro h
    simp [prune_message_history, List.mem_filter]
  · intro h hmem heq
    simp [prune_message_history, List.mem_filter]
    exact ⟨hmem, by omega⟩
  · intro a
    simp [prune_room_activity, List.mem_filter]
  · intro a hmem heq
    simp [prune_room_activity, List.mem_filter]
    exact ⟨hmem, by omega⟩

/-- Witness for C5: a history row replaced exactly at the one-day boundary
survives the run at now = 0. -/
theorem c5_witness :
    HistRec.mk (-86400) ∈ ((prune_message_history 0 1 retentionDB).2).message_history :=
  (c5_retention_strict_boundaries 0 1 1 retentionDB).2.2.1 ⟨-86400⟩
    (by decide) (by decide)

/-- C4: `apply_permission_updates` returns 0 with the store untouched when
the upsert processes no rows; otherwise it deletes every future with
activation ≤ now within the same transaction and returns the upsert's
rowcount, so after a run returning non-zero no due future remains. -/
theorem c4_future_consumption (now : Int) (db : DB) :
    ((db.user_permission_futures.filter (fun f => decide (f.at_ ≤ now))).length = 0 →
       apply_permission_updates now db = (0, db)) ∧
    ((apply_permission_updates now db).1 ≠ 0 →
       (apply_permission_updates now db).1
         = (db.user_permission_futures.filter (fun f => decide (f.at_ ≤ now))).length ∧
       ∀ f ∈ ((apply_permission_updates now db).2).user_permission_futures,
         ¬ f.at_ ≤ now) := by
  constructor
  · intro h
    exact apply_permission_updates_of_len_zero now db h
  · intro h
    by_cases hz : (appliedFutures now db).length = 0
    · exact absurd (by rw [apply_permission_updates_of_len_zero now db hz]) h
    · refine ⟨apply_permission_updates_fst_of_nonzero now db hz, ?_⟩
      intro f hf
      rw [apply_permission_updates_snd_of_nonzero now db hz] at hf
      have hkeep := (List.mem_filter.mp hf).2
      simp at hkeep
      omega

/-- Witness for C4: a future not yet due leads to a zero count and an
unchanged store. -/
theorem c4_witness : apply_permission_updates 10 lateFutureDB = (0, lateFutureDB) :=
  (c4_future_consumption 10 lateFutureDB).1 (by decide)

/-- C2: a due future is merged into the live override row for its
(room, user) key field by field — each flag takes the future's value when
non-null and otherwise keeps the live value — and with no live row the
future's values are inserted as-is, NULLs included. -/
theorem c2_field_by_field_merge (now : Int) (db : DB) (f : FutureRow)
    (hkey : (appliedFutures now db).filter (keyMatch f.room f.user) = [f]) :
    (∀ r, getOverride db.user_permission_overrides f.room f.user = some r →
       getOverride (((apply_permission_updates now db).2).user_permission_overrides)
           f.room f.user
         = some ⟨r.room, r.user, coalesce f.read r.read, coalesce f.write r.write,
                 coalesce f.upload r.upload, coalesce f.banned r.banned⟩) ∧
    (getOverride db.user_permission_overrides f.room f.user = none →
       getOverride (((apply_permission_updates now db).2).user_permission_overrides)
           f.room f.user = some (futureToRow f)) := by
  have hz : ¬ (appliedFutures now db).length = 0 := by
    intro h0
    rw [List.length_eq_zero] at h0
    rw [h0] at hkey
    simp at hkey
  have hres : ((apply_permission_updates now db).2).user_permission_overrides
      = (appliedFutures now db).foldl upsertOne db.user_permission_overrides := by
    rw [apply_permission_updates_snd_of_nonzero now db hz]
  have hmain := getOverride_foldl_key f (appliedFutures now db)
      db.user_permission_overrides hkey
  constructor
  · intro r hr
    rw [hres, hmain, hr]
    rfl
  · intro hn
    rw [hres, hmain, hn]

/-- Witness for C2: the spec's example — live {read=true, write=null} merged
with future {read=null, write=false, banned=true} yields
{read=true, write=false, banned=true} with upload unchanged. -/
theorem c2_witness :
    getOverride (((apply_permission_updates 10 c2DB).2).user_permission_overrides) 1 2
      = some ⟨1, 2, some true, some false, some true, some true⟩ := by
  have h := (c2_field_by_field_merge 10 c2DB c2Future (by decide)).1 c2Live (by decide)
  simpa [c2Future, c2Live, coalesce] using h

/-- C6: each of the four operations, run twice in immediate succession
against the same captured now with nothing added in between, returns a
count of 0 on the second run. -/
theorem c6_idempotence (now : Int) (db : DB) (fs fs2 : Fs) (hd ad : Nat) :
    (prune_files now ((prune_files now db fs).db) fs2).ret = 0 ∧
    (prune_message_history now hd ((prune_message_history now hd db).2)).1 = 0 ∧
    (prune_room_activity now ad ((prune_room_activity now ad db).2)).1 = 0 ∧
    (apply_permission_updates now ((apply_permission_updates now db).2)).1 = 0 := by
  refine ⟨?_, ?_, ?_, ?_⟩
  · rw [prune_files_of_no_expired now _ fs2 (prune_files_no_expired_after now db fs)]
  · simp [prune_message_history, filter_pred_filter_not]
  · simp [prune_room_activity, filter_pred_filter_not]
  · by_cases hz : (appliedFutures now db).length = 0
    · rw [apply_permission_updates_of_len_zero now db hz]
      show (apply_permission_updates now db).1 = 0
      rw [apply_permission_updates_of_len_zero now db hz]
    · have h3 : appliedFutures now ((apply_permission_updates now db).2) = [] := by
        unfold appliedFutures
        rw [apply_permission_updates_snd_of_nonzero now db hz]
        exact filter_pred_filter_not _ _
      rw [apply_permission_updates_of_len_zero now _ (by rw [h3]; rfl)]

/-- C7: in the driver, an exception from any of the four operations makes
the tick stop before the remaining operations (the result does not depend
on them), is logged as a warning, and is never propagated — the driver
returns a value; a tick on which all four operations succeed ends in the
fully updated state. -/
theorem c7_tick_failure_isolation {σ : Type}
    (o1 o2 o3 o4 : σ → Except String (Nat × σ)) (s : σ) :
    (∀ e, o1 s = Except.error e →
       ∀ o2x o3x o4x,
         cleanup o1 o2 o3 o4 s
           = (s, [⟨LogLevel.warn, "Periodic database cleanup failed: " ++ e⟩]) ∧
         cleanup o1 o2 o3 o4 s = cleanup o1 o2x o3x o4x s) ∧
    (∀ n1 s1 e, o1 s = Except.ok (n1, s1) → o2 s1 = Except.error e →
       ∀ o3x o4x,
         cleanup o1 o2 o3 o4 s
           = (s1, [⟨LogLevel.warn, "Periodic database cleanup failed: " ++ e⟩]) ∧
         cleanup o1 o2 o3 o4 s = cleanup o1 o2 o3x o4x s) ∧
    (∀ n1 s1 n2 s2 e, o1 s = Except.ok (n1, s1) → o2 s1 = Except.ok (n2, s2) →
       o3 s2 = Except.error e →
       ∀ o4x,
         cleanup o1 o2 o3 o4 s
           = (s2, [⟨LogLevel.warn, "Periodic database cleanup failed: " ++ e⟩]) ∧
         cleanup o1 o2 o3 o4 s = cleanup o1 o2 o3 o4x s) ∧
    (∀ n1 s1 n2 s2 n3 s3 e, o1 s = Except.ok (n1, s1) → o2 s1 = Except.ok (n2, s2) →
       o3 s2 = Except.ok (n3, s3) → o4 s3 = Except.error e →
       cleanup o1 o2 o3 o4 s
         = (s3, [⟨LogLevel.warn, "Periodic database cleanup failed: " ++ e⟩])) ∧
    (∀ n1 s1 n2 s2 n3 s3 n4 s4, o1 s = Except.ok (n1, s1) →
       o2 s1 = Except.ok (n2, s2) → o3 s2 = Except.ok (n3, s3) →
       o4 s3 = Except.ok (n4, s4) →
       (cleanup o1 o2 o3 o4 s).1 = s4) := by
  refine ⟨?_, ?_, ?_, ?_, ?_⟩
  · intro e h1 o2x o3x o4x
    constructor <;> simp [cleanup, h1]
  · intro n1 s1 e h1 h2 o3x o4x
    constructor <;> simp [cleanup, h1, h2]
  · intro n1 s1 n2 s2 e h1 h2 h3 o4x
    constructor <;> simp [cleanup, h1, h2, h3]
  · intro n1 s1 n2 s2 n3 s3 e h1 h2 h3 h4
    simp [cleanup, h1, h2, h3, h4]
  · intro n1 s1 n2 s2 n3 s3 n4 s4 h1 h2 h3 h4
    simp [cleanup, h1, h2, h3, h4]

/-- Witness for C7: with a failing first operation the driver returns the
unchanged state and one warning line, invoking nothing else. -/
theorem c7_witness :
    cleanup tickOpFail tickOpOk tickOpOk tickOpOk 0
      = (0, [⟨LogLevel.warn, "Periodic database cleanup failed: " ++ "boom"⟩]) :=
  (((c7_tick_failure_isolation tickOpFail tickOpOk tickOpOk tickOpOk 0).1
      "boom" rfl) tickOpOk tickOpOk tickOpOk).1

end SogsCleanup
